import Mathlib

/-!
Verification of the wire codec and client orchestration of the
tokio-playground repository (src/core/src/lib.rs, src/client/src/main.rs).

Byte buffers (`BytesMut`) are modelled as `List Nat`, each element one byte
(a byte is `< 256`; theorems carry this as a well-formedness hypothesis,
matching the `u8` element type of the Rust buffer).  Machine-integer
arithmetic is modelled on `Nat` with explicit `% 2 ^ 32` / `% 2 ^ 16`
wrapping at the points where the Rust `u32` / `u16` operations can wrap.
Stateful decode/encode (which mutate the buffer) are modelled as pure
functions returning the result together with the buffer left behind.
-/

/-- Mirror of `std::net::IpAddr`, restricted to what the codec inspects:
an IPv4 address carries its four octets; every other family is collapsed
into the `v6` constructor (the encoder only pattern-matches on the family
and never reads a non-IPv4 payload). -/
inductive IpAddr where
  | v4 (o1 o2 o3 o4 : Nat)
  | v6
  deriving DecidableEq

/-- Mirror of `std::net::SocketAddr`: an IP address plus a 16-bit port. -/
structure SocketAddr where
  ip : IpAddr
  port : Nat
  deriving DecidableEq

/-- `core::Request` from src/core/src/lib.rs: `num_addrs: u32`. -/
structure Request where
  num_addrs : Nat
  deriving DecidableEq

/-- `core::Response` from src/core/src/lib.rs: `addrs: Vec<SocketAddr>`. -/
structure Response where
  addrs : List SocketAddr
  deriving DecidableEq

/-- Result of a `Decoder::decode` call: `Ok(None)` (need more data),
`Err(..)` (the codec's only error is `InvalidInput`), or `Ok(Some(msg))`. -/
inductive DecodeResult (α : Type) where
  | needMoreData
  | invalidInput
  | decoded (msg : α)
  deriving DecidableEq

/-- Result of `ServerToClientCodec::encode`: `Ok(())`, or the
`InvalidInput`/"Only IPv4 supported" error. -/
inductive EncodeResult where
  | ok
  | unsupportedAddressFamily
  deriving DecidableEq

/-- The four bytes `put_u32_be` appends for a `u32` value, big-endian. -/
def u32ToBytesBE (n : Nat) : List Nat :=
  [n / 2 ^ 24 % 256, n / 2 ^ 16 % 256, n / 2 ^ 8 % 256, n % 256]

/-- The two bytes `put_u16_be` appends for a `u16` value, big-endian. -/
def u16ToBytesBE (n : Nat) : List Nat :=
  [n / 2 ^ 8 % 256, n % 256]

/-- The header-reading loop of both decoders (src/core/src/lib.rs):
`let mut n: u32 = 0; for i in 0..4 { n <<= 8; n |= buf[i] as u32; }`.
The `u32` left shift discards overflowing bits, hence the `% 2 ^ 32`. -/
def readU32BE (buf : List Nat) : Nat :=
  (List.range 4).foldl (fun n i => ((n <<< 8) % 2 ^ 32) ||| buf.getD i 0) 0

/-- The port-reading loop of `ClientToServerCodec::decode`:
`let mut n: u16 = 0; for i in 0..2 { n <<= 8; n |= buf[offset + i] as u16; }`. -/
def readU16BE (buf : List Nat) (offset : Nat) : Nat :=
  (List.range 2).foldl (fun n i => ((n <<< 8) % 2 ^ 16) ||| buf.getD (offset + i) 0) 0

/-- `ClientToServerCodec::encode` (src/core/src/lib.rs lines 35-39):
appends `num_addrs` as 4 big-endian bytes, always succeeds. -/
def ClientToServerCodec.encode (item : Request) (buf : List Nat) : List Nat :=
  buf ++ u32ToBytesBE item.num_addrs

/-- The per-address loop of `ClientToServerCodec::decode`
(src/core/src/lib.rs lines 84-105): starting at `offset`, read
`num_addrs` entries of 4 IP octets plus a 2-byte big-endian port,
advancing the offset by 6 each time, pushing in order. -/
def parseAddrs (buf : List Nat) : Nat → Nat → List SocketAddr
  | _, 0 => []
  | offset, k + 1 =>
    { ip := IpAddr.v4 (buf.getD offset 0) (buf.getD (offset + 1) 0)
        (buf.getD (offset + 2) 0) (buf.getD (offset + 3) 0),
      port := readU16BE buf (offset + 4) } :: parseAddrs buf (offset + 6) k

/-- `ClientToServerCodec::decode` (src/core/src/lib.rs lines 52-108),
the Response decoder used by the client.  `buf.split_to(msg_len)` is
modelled by returning `buf.drop msg_len` as the remaining buffer; the
early returns leave the buffer untouched. -/
def ClientToServerCodec.decode (buf : List Nat) : DecodeResult Response × List Nat :=
  if buf.length < 4 then (.needMoreData, buf)
  else
    let payload_len := readU32BE buf
    if payload_len % 6 ≠ 0 then (.invalidInput, buf)
    else
      let num_addrs := payload_len / 6
      let msg_len := 4 + payload_len
      if buf.length < msg_len then (.needMoreData, buf)
      else (.decoded { addrs := parseAddrs buf 4 num_addrs }, buf.drop msg_len)

/-- The per-address loop of `ServerToClientCodec::encode`
(src/core/src/lib.rs lines 127-137): for each address, append its 4 IP
octets then its port as 2 big-endian bytes; on the first non-IPv4
address return the error immediately, leaving what was already written. -/
def ServerToClientCodec.encodeAddrs : List SocketAddr → List Nat → EncodeResult × List Nat
  | [], buf => (.ok, buf)
  | addr :: rest, buf =>
    match addr.ip with
    | .v4 o1 o2 o3 o4 =>
      ServerToClientCodec.encodeAddrs rest (buf ++ [o1, o2, o3, o4] ++ u16ToBytesBE addr.port)
    | .v6 => (.unsupportedAddressFamily, buf)

/-- `ServerToClientCodec::encode` (src/core/src/lib.rs lines 123-140):
first appends `item.addrs.len() as u32 * 6` as 4 big-endian bytes (a
`u32` product, which truncates/wraps modulo `2 ^ 32`), then the
addresses. -/
def ServerToClientCodec.encode (item : Response) (buf : List Nat) : EncodeResult × List Nat :=
  ServerToClientCodec.encodeAddrs item.addrs
    (buf ++ u32ToBytesBE (item.addrs.length % 2 ^ 32 * 6 % 2 ^ 32))

/-- `ServerToClientCodec::decode` (src/core/src/lib.rs lines 152-169),
the Request decoder used by the server: with at least 4 bytes buffered it
unconditionally reads them as big-endian `num_addrs` and consumes them. -/
def ServerToClientCodec.decode (buf : List Nat) : DecodeResult Request × List Nat :=
  if buf.length < 4 then (.needMoreData, buf)
  else (.decoded { num_addrs := readU32BE buf }, buf.drop 4)

/-- A buffer whose entries are bytes (the `u8` element type of `BytesMut`). -/
def BytesWf (buf : List Nat) : Prop := ∀ b ∈ buf, b < 256

/-- Whether an address is IPv4 (the discriminant the encoder matches on). -/
def SocketAddr.isV4 (a : SocketAddr) : Bool :=
  match a.ip with
  | .v4 _ _ _ _ => true
  | .v6 => false

/-- Well-formedness matching the Rust types: IPv4 octets are `u8`,
the port is `u16`. -/
def SocketAddr.Wf (a : SocketAddr) : Prop :=
  (match a.ip with
   | .v4 o1 o2 o3 o4 => o1 < 256 ∧ o2 < 256 ∧ o3 < 256 ∧ o4 < 256
   | .v6 => True) ∧ a.port < 2 ^ 16

instance (a : SocketAddr) : Decidable a.Wf := by
  unfold SocketAddr.Wf
  exact match a.ip with
  | .v4 _ _ _ _ => inferInstanceAs (Decidable (_ ∧ _))
  | .v6 => inferInstanceAs (Decidable (_ ∧ _))

/-- The 6 payload bytes one IPv4 address contributes on the wire. -/
def addrBytes (a : SocketAddr) : List Nat :=
  match a.ip with
  | .v4 o1 o2 o3 o4 => [o1, o2, o3, o4] ++ u16ToBytesBE a.port
  | .v6 => []

/-- The stdin thread of the client (src/client/src/main.rs lines 44-70),
with line reading and integer parsing abstracted to their outcome (they
are out-of-scope external collaborators): `none` is a non-integer line
(printed error, `continue`), `some n` a parsed count.  Each parsed count
is sent into the unbounded channel as a `Request`; after sending `n = 0`
the loop breaks. -/
def stdinLoop : List (Option Nat) → List Request
  | [] => []
  | none :: rest => stdinLoop rest
  | some n :: rest =>
    { num_addrs := n } :: if n = 0 then [] else stdinLoop rest

/-- The write-direction fold of the client session
(src/client/src/main.rs lines 80-91), as a function of the channel
messages it receives: a message with `num_addrs == 0` makes it call
`std::process::exit(0)` (second component `true`) without forwarding the
message to the socket; any other message is sent to the socket writer
(collected in order in the first component).  The fold never takes a
server response as input: its behaviour depends on the outbound messages
alone. -/
def writeFold : List Request → List Request × Bool
  | [] => ([], false)
  | msg :: rest =>
    if msg.num_addrs = 0 then ([], true)
    else
      let r := writeFold rest
      (msg :: r.1, r.2)

/-- A concrete 715827883-element address list: the smallest length at which
the `u32` product `len * 6` in the Response length computation wraps
(6 * 715827883 = 2 ^ 32 + 2, so the wire length field becomes 2). -/
def bigAddrs : List SocketAddr :=
  List.replicate 715827883 { ip := IpAddr.v4 1 2 3 4, port := 80 }

/-- The requests the stdin loop emits for a run of inputs containing no
zero: every parsed line, in order. -/
def msgsOf (inputs : List (Option Nat)) : List Request :=
  (inputs.filterMap id).map (fun n => { num_addrs := n })

/-- Bitwise or of a value shifted past `k` bits with a `k`-bit value is addition. -/
theorem lor_eq_add_of_lt {k : Nat} (a : Nat) : ∀ {b : Nat}, b < 2 ^ k → (a * 2 ^ k) ||| b = a * 2 ^ k + b := by
  induction k generalizing a with
  | zero =>
    intro b hb
    have hb0 : b = 0 := by omega
    subst hb0
    simp
  | succ k ih =>
    intro b hb
    have hb2 : b / 2 < 2 ^ k := by omega
    have h1 : a * 2 ^ (k + 1) = Nat.bit false (a * 2 ^ k) := by
      simp [Nat.bit_val]
      ring
    have h2 : Nat.bit (decide (b % 2 = 1)) (b / 2) = b :=
      Nat.bit_decide_mod_two_eq_one_shiftRight_one b
    calc (a * 2 ^ (k + 1)) ||| b
        = Nat.bit false (a * 2 ^ k) ||| Nat.bit (decide (b % 2 = 1)) (b / 2) := by
          rw [h1, h2]
      _ = Nat.bit (false || decide (b % 2 = 1)) ((a * 2 ^ k) ||| (b / 2)) :=
          Nat.lor_bit false (a * 2 ^ k) (decide (b % 2 = 1)) (b / 2)
      _ = Nat.bit (decide (b % 2 = 1)) (a * 2 ^ k + b / 2) := by
          rw [ih a hb2, Bool.false_or]
      _ = a * 2 ^ (k + 1) + b := by
          have hpow : a * 2 ^ (k + 1) = 2 * (a * 2 ^ k) := by ring
          rcases Nat.mod_two_eq_zero_or_one b with h | h <;>
            simp [Nat.bit_val, h] <;> omega

/-- One iteration of the byte-accumulation loop `n <<= 8; n |= b` in arithmetic form. -/
theorem shiftStep (w n b : Nat) (hn : n * 256 < 2 ^ w) (hb : b < 256) :
    ((n <<< 8) % 2 ^ w) ||| b = n * 256 + b := by
  have hs : n <<< 8 = n * 2 ^ 8 := Nat.shiftLeft_eq n 8
  have h256 : (2 : Nat) ^ 8 = 256 := by norm_num
  rw [hs, h256, Nat.mod_eq_of_lt hn]
  have := lor_eq_add_of_lt (k := 8) n (b := b) (by omega)
  rw [h256] at this
  exact this

/-- The header loop reads the first four bytes as a big-endian number. -/
theorem readU32BE_cons (b0 b1 b2 b3 : Nat) (rest : List Nat)
    (h0 : b0 < 256) (h1 : b1 < 256) (h2 : b2 < 256) (h3 : b3 < 256) :
    readU32BE (b0 :: b1 :: b2 :: b3 :: rest) = ((b0 * 256 + b1) * 256 + b2) * 256 + b3 := by
  unfold readU32BE
  rw [show List.range 4 = [0, 1, 2, 3] from rfl]
  simp only [List.foldl_cons, List.foldl_nil, List.getD_cons_zero, List.getD_cons_succ]
  rw [shiftStep 32 0 b0 (by norm_num) h0]
  rw [shiftStep 32 (0 * 256 + b0) b1 (by omega) h1]
  rw [shiftStep 32 ((0 * 256 + b0) * 256 + b1) b2 (by omega) h2]
  rw [shiftStep 32 (((0 * 256 + b0) * 256 + b1) * 256 + b2) b3 (by omega) h3]
  ring

/-- Reading back the four bytes written for `n < 2 ^ 32` recovers `n`, whatever follows. -/
theorem readU32BE_bytes (n : Nat) (hn : n < 2 ^ 32) (rest : List Nat) :
    readU32BE (u32ToBytesBE n ++ rest) = n := by
  unfold u32ToBytesBE
  simp only [List.cons_append, List.nil_append]
  rw [readU32BE_cons _ _ _ _ rest (by omega) (by omega) (by omega) (by omega)]
  omega

/-- Indexing past a left part of an appended buffer indexes the right part. -/
theorem getD_append_right' : ∀ (l₁ l₂ : List Nat) (i j : Nat), i = l₁.length + j →
    (l₁ ++ l₂).getD i 0 = l₂.getD j 0 := by
  intro l₁
  induction l₁ with
  | nil =>
    intro l₂ i j h
    simp at h
    subst h
    simp
  | cons x xs ih =>
    intro l₂ i j h
    simp only [List.length_cons] at h
    subst h
    have : xs.length + 1 + j = (xs.length + j) + 1 := by omega
    rw [this, List.cons_append, List.getD_cons_succ]
    exact ih l₂ (xs.length + j) j rfl

/-- Reading back the two port bytes written for `p < 2 ^ 16` recovers `p`. -/
theorem readU16BE_bytes (pre : List Nat) (p : Nat) (hp : p < 2 ^ 16) (rest : List Nat)
    (off : Nat) (hoff : off = pre.length) :
    readU16BE (pre ++ u16ToBytesBE p ++ rest) off = p := by
  unfold readU16BE
  rw [show List.range 2 = [0, 1] from rfl]
  simp only [List.foldl_cons, List.foldl_nil]
  rw [List.append_assoc]
  rw [getD_append_right' pre (u16ToBytesBE p ++ rest) (off + 0) 0 (by omega)]
  rw [getD_append_right' pre (u16ToBytesBE p ++ rest) (off + 1) 1 (by omega)]
  unfold u16ToBytesBE
  simp only [List.cons_append, List.nil_append, List.getD_cons_zero, List.getD_cons_succ]
  rw [shiftStep 16 0 (p / 2 ^ 8 % 256) (by norm_num) (by omega)]
  rw [shiftStep 16 (0 * 256 + p / 2 ^ 8 % 256) (p % 256) (by omega) (by omega)]
  omega

/-- An IPv4 address occupies exactly 6 payload bytes. -/
theorem addrBytes_length (a : SocketAddr) (h : a.isV4 = true) : (addrBytes a).length = 6 := by
  unfold addrBytes
  unfold SocketAddr.isV4 at h
  match hip : a.ip with
  | .v4 o1 o2 o3 o4 => simp [u16ToBytesBE]
  | .v6 => rw [hip] at h; simp at h

/-- The decoder loop, run at the right offset over an encoded address list, recovers the list. -/
theorem parseAddrs_encoded : ∀ (addrs : List SocketAddr) (pre rest : List Nat) (off : Nat),
    (∀ a ∈ addrs, a.Wf ∧ a.isV4 = true) → off = pre.length →
    parseAddrs (pre ++ addrs.flatMap addrBytes ++ rest) off addrs.length = addrs := by
  intro addrs
  induction addrs with
  | nil =>
    intro pre rest off _ _
    simp [parseAddrs]
  | cons a as ih =>
    intro pre rest off h hoff
    obtain ⟨⟨hwf, hport⟩, hv4⟩ := h a (List.mem_cons_self a as)
    match hip : a.ip with
    | .v6 => rw [SocketAddr.isV4, hip] at hv4; simp at hv4
    | .v4 o1 o2 o3 o4 =>
      rw [hip] at hwf
      obtain ⟨ho1, ho2, ho3, ho4⟩ := hwf
      have hbytes : addrBytes a = [o1, o2, o3, o4] ++ u16ToBytesBE a.port := by
        unfold addrBytes
        rw [hip]
      have hbuf : pre ++ (a :: as).flatMap addrBytes ++ rest
          = pre ++ ([o1, o2, o3, o4] ++ (u16ToBytesBE a.port ++ (as.flatMap addrBytes ++ rest))) := by
        simp [List.flatMap_cons, hbytes, List.append_assoc]
      rw [List.length_cons, parseAddrs, hbuf]
      have g0 : (pre ++ ([o1, o2, o3, o4] ++ (u16ToBytesBE a.port ++ (as.flatMap addrBytes ++ rest)))).getD off 0 = o1 := by
        rw [getD_append_right' _ _ off 0 (by omega)]
        simp
      have g1 : (pre ++ ([o1, o2, o3, o4] ++ (u16ToBytesBE a.port ++ (as.flatMap addrBytes ++ rest)))).getD (off + 1) 0 = o2 := by
        rw [getD_append_right' _ _ (off + 1) 1 (by omega)]
        simp
      have g2 : (pre ++ ([o1, o2, o3, o4] ++ (u16ToBytesBE a.port ++ (as.flatMap addrBytes ++ rest)))).getD (off + 2) 0 = o3 := by
        rw [getD_append_right' _ _ (off + 2) 2 (by omega)]
        simp
      have g3 : (pre ++ ([o1, o2, o3, o4] ++ (u16ToBytesBE a.port ++ (as.flatMap addrBytes ++ rest)))).getD (off + 3) 0 = o4 := by
        rw [getD_append_right' _ _ (off + 3) 3 (by omega)]
        simp
      have gport : readU16BE (pre ++ ([o1, o2, o3, o4] ++ (u16ToBytesBE a.port ++ (as.flatMap addrBytes ++ rest)))) (off + 4) = a.port := by
        have hassoc : pre ++ ([o1, o2, o3, o4] ++ (u16ToBytesBE a.port ++ (as.flatMap addrBytes ++ rest)))
            = (pre ++ [o1, o2, o3, o4]) ++ u16ToBytesBE a.port ++ (as.flatMap addrBytes ++ rest) := by
          simp [List.append_assoc]
        rw [hassoc]
        exact readU16BE_bytes (pre ++ [o1, o2, o3, o4]) a.port hport _ (off + 4)
          (by simp [List.length_append, hoff])
      rw [g0, g1, g2, g3, gport]
      have htail : parseAddrs (pre ++ ([o1, o2, o3, o4] ++ (u16ToBytesBE a.port ++ (as.flatMap addrBytes ++ rest)))) (off + 6) as.length = as := by
        have hassoc : pre ++ ([o1, o2, o3, o4] ++ (u16ToBytesBE a.port ++ (as.flatMap addrBytes ++ rest)))
            = (pre ++ addrBytes a) ++ as.flatMap addrBytes ++ rest := by
          simp [hbytes, List.append_assoc]
        rw [hassoc]
        exact ih (pre ++ addrBytes a) rest (off + 6)
          (fun x hx => h x (List.mem_cons_of_mem a hx))
          (by rw [List.length_append, addrBytes_length a hv4, hoff])
      rw [htail]
      have : a = { ip := IpAddr.v4 o1 o2 o3 o4, port := a.port } := by
        cases a
        simp at hip ⊢
        exact hip
      rw [← this]

/-- On an all-IPv4 list the encoder loop succeeds and appends each address's 6 bytes in order. -/
theorem encodeAddrs_ok : ∀ (addrs : List SocketAddr) (buf : List Nat),
    (∀ a ∈ addrs, a.isV4 = true) →
    ServerToClientCodec.encodeAddrs addrs buf = (.ok, buf ++ addrs.flatMap addrBytes) := by
  intro addrs
  induction addrs with
  | nil =>
    intro buf _
    simp [ServerToClientCodec.encodeAddrs]
  | cons a as ih =>
    intro buf h
    have hv4 := h a (List.mem_cons_self a as)
    obtain ⟨ip, p⟩ := a
    cases ip with
    | v6 => rw [SocketAddr.isV4] at hv4; simp at hv4
    | v4 o1 o2 o3 o4 =>
      simp only [ServerToClientCodec.encodeAddrs]
      rw [ih _ (fun x hx => h x (List.mem_cons_of_mem _ hx))]
      simp [addrBytes, List.append_assoc]

/-- The encoder loop stops at the first non-IPv4 address, keeping what it already wrote. -/
theorem encodeAddrs_err : ∀ (pre : List SocketAddr) (a : SocketAddr) (rest : List SocketAddr) (buf : List Nat),
    (∀ x ∈ pre, x.isV4 = true) → a.isV4 = false →
    ServerToClientCodec.encodeAddrs (pre ++ a :: rest) buf
      = (.unsupportedAddressFamily, buf ++ pre.flatMap addrBytes) := by
  intro pre
  induction pre with
  | nil =>
    intro a rest buf _ ha
    obtain ⟨ip, p⟩ := a
    cases ip with
    | v4 o1 o2 o3 o4 => rw [SocketAddr.isV4] at ha; simp at ha
    | v6 =>
      simp only [List.nil_append, List.flatMap_nil, List.append_nil]
      simp only [ServerToClientCodec.encodeAddrs]
  | cons x xs ih =>
    intro a rest buf h ha
    have hv4 := h x (List.mem_cons_self x xs)
    obtain ⟨ip, p⟩ := x
    cases ip with
    | v6 => rw [SocketAddr.isV4] at hv4; simp at hv4
    | v4 o1 o2 o3 o4 =>
      have hstep : ServerToClientCodec.encodeAddrs
          ((⟨IpAddr.v4 o1 o2 o3 o4, p⟩ :: xs) ++ a :: rest) buf
          = ServerToClientCodec.encodeAddrs (xs ++ a :: rest)
            (buf ++ [o1, o2, o3, o4] ++ u16ToBytesBE p) := rfl
      rw [hstep]
      rw [ih a rest _ (fun y hy => h y (List.mem_cons_of_mem _ hy)) ha]
      simp [addrBytes, List.append_assoc]

/-- The encoder loop fails exactly when some address is not IPv4. -/
theorem encodeAddrs_fst_iff : ∀ (addrs : List SocketAddr) (buf : List Nat),
    (ServerToClientCodec.encodeAddrs addrs buf).1 = .unsupportedAddressFamily
      ↔ ∃ a ∈ addrs, a.isV4 = false := by
  intro addrs
  induction addrs with
  | nil =>
    intro buf
    simp [ServerToClientCodec.encodeAddrs]
  | cons a as ih =>
    intro buf
    obtain ⟨ip, p⟩ := a
    cases ip with
    | v6 =>
      have hstep : ServerToClientCodec.encodeAddrs (⟨IpAddr.v6, p⟩ :: as) buf
          = (.unsupportedAddressFamily, buf) := rfl
      rw [hstep]
      constructor
      · intro _
        exact ⟨⟨IpAddr.v6, p⟩, List.mem_cons_self _ _, rfl⟩
      · intro _
        rfl
    | v4 o1 o2 o3 o4 =>
      have hstep : ServerToClientCodec.encodeAddrs (⟨IpAddr.v4 o1 o2 o3 o4, p⟩ :: as) buf
          = ServerToClientCodec.encodeAddrs as (buf ++ [o1, o2, o3, o4] ++ u16ToBytesBE p) := rfl
      rw [hstep]
      rw [ih]
      constructor
      · rintro ⟨x, hx, hxv⟩
        exact ⟨x, List.mem_cons_of_mem _ hx, hxv⟩
      · rintro ⟨x, hx, hxv⟩
        rcases List.mem_cons.mp hx with h | h
        · subst h
          rw [SocketAddr.isV4] at hxv
          simp at hxv
        · exact ⟨x, h, hxv⟩

/-- An all-IPv4 list encodes to `6 * length` payload bytes. -/
theorem flatMap_addrBytes_length (addrs : List SocketAddr)
    (h : ∀ a ∈ addrs, a.isV4 = true) :
    (addrs.flatMap addrBytes).length = 6 * addrs.length := by
  induction addrs with
  | nil => simp
  | cons a as ih =>
    simp only [List.flatMap_cons, List.length_append, List.length_cons]
    rw [addrBytes_length a (h a (List.mem_cons_self a as)),
      ih (fun x hx => h x (List.mem_cons_of_mem a hx))]
    ring

/-- With fewer than 4 bytes buffered, the Response decoder reports need-more-data and keeps the buffer. -/
theorem decode_short (buf : List Nat) (h : buf.length < 4) :
    ClientToServerCodec.decode buf = (.needMoreData, buf) := by
  unfold ClientToServerCodec.decode
  rw [if_pos h]

/-- With a header whose payload length is not a multiple of 6, the Response decoder errors and keeps the buffer. -/
theorem decode_invalid (buf : List Nat) (h4 : ¬ buf.length < 4)
    (hm : readU32BE buf % 6 ≠ 0) :
    ClientToServerCodec.decode buf = (.invalidInput, buf) := by
  simp only [ClientToServerCodec.decode]
  rw [if_neg h4, if_pos hm]

/-- With a valid header but an incomplete frame, the Response decoder reports need-more-data and keeps the buffer. -/
theorem decode_header_only (buf : List Nat) (h4 : ¬ buf.length < 4)
    (hm : readU32BE buf % 6 = 0) (hlen : buf.length < 4 + readU32BE buf) :
    ClientToServerCodec.decode buf = (.needMoreData, buf) := by
  simp only [ClientToServerCodec.decode]
  rw [if_neg h4, if_neg (by simpa using hm), if_pos hlen]

/-- With a full frame buffered, the Response decoder parses the addresses and drops exactly the frame. -/
theorem decode_complete (buf : List Nat) (h4 : ¬ buf.length < 4)
    (hm : readU32BE buf % 6 = 0) (hlen : ¬ buf.length < 4 + readU32BE buf) :
    ClientToServerCodec.decode buf
      = (.decoded { addrs := parseAddrs buf 4 (readU32BE buf / 6) },
         buf.drop (4 + readU32BE buf)) := by
  simp only [ClientToServerCodec.decode]
  rw [if_neg h4, if_neg (by simpa using hm), if_neg hlen]

/-- For an all-IPv4 list whose payload fits a `u32`, the Response encoder emits length header plus payload. -/
theorem encode_frame (addrs : List SocketAddr)
    (hwf : ∀ a ∈ addrs, a.isV4 = true) (hlen : 6 * addrs.length < 2 ^ 32) :
    ServerToClientCodec.encode { addrs := addrs } []
      = (.ok, u32ToBytesBE (6 * addrs.length) ++ addrs.flatMap addrBytes) := by
  unfold ServerToClientCodec.encode
  have hq : addrs.length % 2 ^ 32 * 6 % 2 ^ 32 = 6 * addrs.length := by omega
  rw [hq]
  rw [encodeAddrs_ok addrs _ hwf]
  simp

/-- Decoding an encoded frame followed by arbitrary extra bytes yields the original Response and leaves the extra bytes. -/
theorem decode_encoded (addrs : List SocketAddr) (rest : List Nat)
    (hwf : ∀ a ∈ addrs, a.Wf ∧ a.isV4 = true) (hlen : 6 * addrs.length < 2 ^ 32) :
    ClientToServerCodec.decode (u32ToBytesBE (6 * addrs.length) ++ addrs.flatMap addrBytes ++ rest)
      = (.decoded { addrs := addrs }, rest) := by
  have hv4 : ∀ a ∈ addrs, a.isV4 = true := fun a ha => (hwf a ha).2
  have hflen : (addrs.flatMap addrBytes).length = 6 * addrs.length :=
    flatMap_addrBytes_length addrs hv4
  have hblen : (u32ToBytesBE (6 * addrs.length) ++ addrs.flatMap addrBytes ++ rest).length
      = 4 + 6 * addrs.length + rest.length := by
    simp [u32ToBytesBE, hflen]
    omega
  have hread : readU32BE (u32ToBytesBE (6 * addrs.length) ++ addrs.flatMap addrBytes ++ rest)
      = 6 * addrs.length := by
    rw [List.append_assoc]
    exact readU32BE_bytes _ hlen _
  rw [decode_complete _ (by omega) (by rw [hread]; omega) (by rw [hread]; omega)]
  rw [hread]
  have hpa : parseAddrs (u32ToBytesBE (6 * addrs.length) ++ addrs.flatMap addrBytes ++ rest) 4
      (6 * addrs.length / 6) = addrs := by
    have h6 : 6 * addrs.length / 6 = addrs.length := by omega
    rw [h6]
    exact parseAddrs_encoded addrs (u32ToBytesBE (6 * addrs.length)) rest 4 hwf (by simp [u32ToBytesBE])
  rw [hpa]
  have hdrop : (u32ToBytesBE (6 * addrs.length) ++ addrs.flatMap addrBytes ++ rest).drop
      (4 + 6 * addrs.length) = rest :=
    List.drop_left' (by simp [u32ToBytesBE, hflen]; omega)
  rw [hdrop]

/-- C1: the Response decoder is non-destructive on partial input: with fewer
than 4 bytes, or with a valid header (payload length a multiple of 6) but
fewer than `4 + payload_len` bytes, it returns need-more-data and consumes
nothing; hence any strict byte-boundary split of one encoded Response frame
gives need-more-data on the first piece without consuming bytes, and the
reassembled buffer decodes to exactly the Response obtained from the whole
frame. -/
theorem c1_decode_nondestructive :
    (∀ buf : List Nat, buf.length < 4 →
      ClientToServerCodec.decode buf = (.needMoreData, buf))
    ∧ (∀ buf : List Nat, 4 ≤ buf.length → readU32BE buf % 6 = 0 →
        buf.length < 4 + readU32BE buf →
        ClientToServerCodec.decode buf = (.needMoreData, buf))
    ∧ (∀ addrs : List SocketAddr, (∀ a ∈ addrs, a.Wf ∧ a.isV4 = true) →
        6 * addrs.length < 2 ^ 32 →
        ∀ i : Nat, i < (ServerToClientCodec.encode { addrs := addrs } []).2.length →
          ClientToServerCodec.decode ((ServerToClientCodec.encode { addrs := addrs } []).2.take i)
              = (.needMoreData, (ServerToClientCodec.encode { addrs := addrs } []).2.take i)
            ∧ (ServerToClientCodec.encode { addrs := addrs } []).2.take i
                ++ (ServerToClientCodec.encode { addrs := addrs } []).2.drop i
                = (ServerToClientCodec.encode { addrs := addrs } []).2
            ∧ ClientToServerCodec.decode (ServerToClientCodec.encode { addrs := addrs } []).2
                = (.decoded { addrs := addrs }, [])) := by
  refine ⟨fun buf h => decode_short buf h, fun buf h4 hm hl => decode_header_only buf (by omega) hm hl, ?_⟩
  intro addrs hwf hlen i hi
  have hv4 : ∀ a ∈ addrs, a.isV4 = true := fun a ha => (hwf a ha).2
  have hF : (ServerToClientCodec.encode { addrs := addrs } []).2
      = u32ToBytesBE (6 * addrs.length) ++ addrs.flatMap addrBytes := by
    rw [encode_frame addrs hv4 hlen]
  have hflen : (addrs.flatMap addrBytes).length = 6 * addrs.length :=
    flatMap_addrBytes_length addrs hv4
  have hFlen : (ServerToClientCodec.encode { addrs := addrs } []).2.length
      = 4 + 6 * addrs.length := by
    rw [hF]
    simp [u32ToBytesBE, hflen]
    omega
  have hwhole : ClientToServerCodec.decode (ServerToClientCodec.encode { addrs := addrs } []).2
      = (.decoded { addrs := addrs }, []) := by
    rw [hF]
    have := decode_encoded addrs [] hwf hlen
    rwa [List.append_nil] at this
  refine ⟨?_, List.take_append_drop i _, hwhole⟩
  rw [hFlen] at hi
  by_cases hi4 : i < 4
  · apply decode_short
    simp [List.length_take, hFlen]
    omega
  · have htake : (ServerToClientCodec.encode { addrs := addrs } []).2.take i
        = u32ToBytesBE (6 * addrs.length) ++ (addrs.flatMap addrBytes).take (i - 4) := by
      rw [hF, List.take_append_eq_append_take]
      congr 1
      apply List.take_of_length_le
      simp [u32ToBytesBE]
      omega
    rw [htake]
    apply decode_header_only
    · simp [u32ToBytesBE]
    · rw [readU32BE_bytes _ hlen]
      omega
    · rw [readU32BE_bytes _ hlen]
      simp [u32ToBytesBE, List.length_take, hflen]
      omega

/-- For any all-IPv4 list whose `u32` length computation wraps to 2, the
encoder succeeds but its output fails to decode back. -/
theorem encode_wrapped_two_decode_invalid (addrs : List SocketAddr)
    (hv4 : ∀ a ∈ addrs, a.isV4 = true)
    (hq : addrs.length % 2 ^ 32 * 6 % 2 ^ 32 = 2) :
    (ServerToClientCodec.encode { addrs := addrs } []).1 = EncodeResult.ok
    ∧ (ClientToServerCodec.decode (ServerToClientCodec.encode { addrs := addrs } []).2).1
        = DecodeResult.invalidInput
    ∧ (ClientToServerCodec.decode (ServerToClientCodec.encode { addrs := addrs } []).2).1
        ≠ DecodeResult.decoded { addrs := addrs } := by
  have henc : ServerToClientCodec.encode { addrs := addrs } []
      = (.ok, u32ToBytesBE 2 ++ addrs.flatMap addrBytes) := by
    unfold ServerToClientCodec.encode
    rw [hq, encodeAddrs_ok addrs _ hv4]
    simp
  rw [henc]
  have hlen : 4 ≤ (u32ToBytesBE 2 ++ addrs.flatMap addrBytes).length := by
    simp [u32ToBytesBE]
  have hread : readU32BE (u32ToBytesBE 2 ++ addrs.flatMap addrBytes) = 2 :=
    readU32BE_bytes 2 (by norm_num) _
  have hdec : ClientToServerCodec.decode (u32ToBytesBE 2 ++ addrs.flatMap addrBytes)
      = (.invalidInput, u32ToBytesBE 2 ++ addrs.flatMap addrBytes) :=
    decode_invalid _ (by omega) (by rw [hread]; omega)
  refine ⟨rfl, ?_, ?_⟩
  · rw [hdec]
  · rw [hdec]
    intro hcon
    simp at hcon

/-- C2 counterexample: for the 715827883-address list the `u32` product
`len * 6` wraps to 2, so encoding succeeds but decoding the result fails
with the invalid-payload-length error instead of returning the original
sequence: the round-trip claim is false for that sequence. -/
theorem c2_counterexample :
    (ServerToClientCodec.encode { addrs := bigAddrs } []).1 = EncodeResult.ok
    ∧ (ClientToServerCodec.decode (ServerToClientCodec.encode { addrs := bigAddrs } []).2).1
        = DecodeResult.invalidInput
    ∧ (ClientToServerCodec.decode (ServerToClientCodec.encode { addrs := bigAddrs } []).2).1
        ≠ DecodeResult.decoded { addrs := bigAddrs } := by
  apply encode_wrapped_two_decode_invalid
  · intro a ha
    rw [List.eq_of_mem_replicate ha]
    rfl
  · have hbl : bigAddrs.length = 715827883 := by
      unfold bigAddrs
      exact List.length_replicate 715827883 _
    rw [hbl]
    decide

/-- C2 (amended): for every finite sequence of IPv4 addresses with at most
715827882 entries (so that `6 * length < 2 ^ 32`), encoding succeeds and
decoding the resulting bytes returns exactly the original sequence, order
preserved. -/
theorem c2_roundtrip_bounded (addrs : List SocketAddr)
    (hwf : ∀ a ∈ addrs, a.Wf ∧ a.isV4 = true) (hlen : 6 * addrs.length < 2 ^ 32) :
    (ServerToClientCodec.encode { addrs := addrs } []).1 = EncodeResult.ok
    ∧ ClientToServerCodec.decode (ServerToClientCodec.encode { addrs := addrs } []).2
        = (.decoded { addrs := addrs }, []) := by
  have hv4 : ∀ a ∈ addrs, a.isV4 = true := fun a ha => (hwf a ha).2
  rw [encode_frame addrs hv4 hlen]
  refine ⟨rfl, ?_⟩
  have := decode_encoded addrs [] hwf hlen
  rwa [List.append_nil] at this

/-- C3: for every buffer of at least 4 bytes whose big-endian header is not
a multiple of 6, the Response decoder fails with the invalid-payload-length
error, with no hypothesis on whether the rest of the frame has arrived (the
check precedes the full-frame test); the decoder is a total function, so it
never panics and the failing result truncates nothing. -/
theorem c3_invalid_payload_length (buf : List Nat) (h4 : 4 ≤ buf.length)
    (hm : readU32BE buf % 6 ≠ 0) :
    ClientToServerCodec.decode buf = (.invalidInput, buf) :=
  decode_invalid buf (by omega) hm

/-- C4: whenever the Response decoder succeeds it removes exactly
`4 + payload_len` bytes from the front and returns the remainder intact;
consequently two concatenated encoded frames decode, under repeated
invocation, to the two original Responses in order, ending with an empty
buffer. -/
theorem c4_decode_consumes_exact_frame :
    (∀ (buf buf2 : List Nat) (r : Response),
      ClientToServerCodec.decode buf = (.decoded r, buf2) →
      4 + readU32BE buf ≤ buf.length ∧ buf2 = buf.drop (4 + readU32BE buf))
    ∧ (∀ addrs1 addrs2 : List SocketAddr,
        (∀ a ∈ addrs1, a.Wf ∧ a.isV4 = true) → (∀ a ∈ addrs2, a.Wf ∧ a.isV4 = true) →
        6 * addrs1.length < 2 ^ 32 → 6 * addrs2.length < 2 ^ 32 →
        ClientToServerCodec.decode
            ((ServerToClientCodec.encode { addrs := addrs1 } []).2
              ++ (ServerToClientCodec.encode { addrs := addrs2 } []).2)
          = (.decoded { addrs := addrs1 }, (ServerToClientCodec.encode { addrs := addrs2 } []).2)
        ∧ ClientToServerCodec.decode (ServerToClientCodec.encode { addrs := addrs2 } []).2
            = (.decoded { addrs := addrs2 }, [])) := by
  constructor
  · intro buf buf2 r h
    by_cases h1 : buf.length < 4
    · rw [decode_short buf h1] at h
      simp [Prod.ext_iff] at h
    · by_cases hm : readU32BE buf % 6 = 0
      · by_cases hl : buf.length < 4 + readU32BE buf
        · rw [decode_header_only buf h1 hm hl] at h
          simp [Prod.ext_iff] at h
        · rw [decode_complete buf h1 hm hl] at h
          rw [Prod.ext_iff] at h
          exact ⟨by omega, h.2.symm⟩
      · rw [decode_invalid buf h1 hm] at h
        simp [Prod.ext_iff] at h
  · intro addrs1 addrs2 hwf1 hwf2 hlen1 hlen2
    have hv41 : ∀ a ∈ addrs1, a.isV4 = true := fun a ha => (hwf1 a ha).2
    have hv42 : ∀ a ∈ addrs2, a.isV4 = true := fun a ha => (hwf2 a ha).2
    have hF1 : (ServerToClientCodec.encode { addrs := addrs1 } []).2
        = u32ToBytesBE (6 * addrs1.length) ++ addrs1.flatMap addrBytes := by
      rw [encode_frame addrs1 hv41 hlen1]
    constructor
    · rw [hF1, List.append_assoc, ← List.append_assoc]
      exact decode_encoded addrs1 _ hwf1 hlen1
    · have := decode_encoded addrs2 [] hwf2 hlen2
      rw [List.append_nil] at this
      rw [encode_frame addrs2 hv42 hlen2]
      exact this

/-- C5: for every `n < 2 ^ 32`, encoding `Request{num_addrs := n}` and
decoding the result returns `Request{num_addrs := n}` with an empty
remainder; on any buffer of at least 4 bytes the Request decoder accepts
the value and consumes exactly 4 bytes; it never returns an error. -/
theorem c5_request_roundtrip :
    (∀ n : Nat, n < 2 ^ 32 →
      ServerToClientCodec.decode (ClientToServerCodec.encode { num_addrs := n } [])
        = (.decoded { num_addrs := n }, []))
    ∧ (∀ buf : List Nat, 4 ≤ buf.length →
        ServerToClientCodec.decode buf = (.decoded { num_addrs := readU32BE buf }, buf.drop 4))
    ∧ (∀ buf : List Nat, (ServerToClientCodec.decode buf).1 ≠ DecodeResult.invalidInput) := by
  refine ⟨?_, ?_, ?_⟩
  · intro n hn
    have henc : ClientToServerCodec.encode { num_addrs := n } [] = u32ToBytesBE n := by
      unfold ClientToServerCodec.encode
      simp
    rw [henc]
    unfold ServerToClientCodec.decode
    rw [if_neg (by simp [u32ToBytesBE])]
    have hr : readU32BE (u32ToBytesBE n) = n := by
      have := readU32BE_bytes n hn []
      rwa [List.append_nil] at this
    rw [hr]
    simp [u32ToBytesBE]
  · intro buf h
    unfold ServerToClientCodec.decode
    rw [if_neg (by omega)]
  · intro buf
    unfold ServerToClientCodec.decode
    by_cases h : buf.length < 4
    · rw [if_pos h]
      simp
    · rw [if_neg h]
      simp

/-- C6: the Response encoder fails with the unsupported-address-family
error exactly when some address is not IPv4, and on an all-IPv4 list it
succeeds, appending precisely the length header and each address's exact
6 bytes (no truncation or reinterpretation). -/
theorem c6_encode_ipv4_iff (item : Response) (buf : List Nat) :
    ((ServerToClientCodec.encode item buf).1 = EncodeResult.unsupportedAddressFamily
      ↔ ∃ a ∈ item.addrs, a.isV4 = false)
    ∧ ((∀ a ∈ item.addrs, a.isV4 = true) →
        ServerToClientCodec.encode item buf
          = (.ok, buf ++ u32ToBytesBE (item.addrs.length % 2 ^ 32 * 6 % 2 ^ 32)
              ++ item.addrs.flatMap addrBytes)) := by
  constructor
  · unfold ServerToClientCodec.encode
    exact encodeAddrs_fst_iff item.addrs _
  · intro hv4
    unfold ServerToClientCodec.encode
    rw [encodeAddrs_ok item.addrs _ hv4]

/-- C7: the 16-byte frame 00 00 00 0C 00 01 02 03 3F 5E FF 01 05 16 17 00
decodes to the Response [(0.1.2.3:16222), (255.1.5.22:5888)], and encoding
that Response produces exactly those 16 bytes. -/
theorem c7_concrete_frame :
    ClientToServerCodec.decode [0, 0, 0, 12, 0, 1, 2, 3, 63, 94, 255, 1, 5, 22, 23, 0]
      = (.decoded { addrs := [{ ip := IpAddr.v4 0 1 2 3, port := 16222 },
          { ip := IpAddr.v4 255 1 5 22, port := 5888 }] }, [])
    ∧ ServerToClientCodec.encode { addrs := [{ ip := IpAddr.v4 0 1 2 3, port := 16222 },
          { ip := IpAddr.v4 255 1 5 22, port := 5888 }] } []
      = (.ok, [0, 0, 0, 12, 0, 1, 2, 3, 63, 94, 255, 1, 5, 22, 23, 0]) := by
  decide

/-- The stdin loop passes straight through a run of inputs containing no zero. -/
theorem stdinLoop_no_zero (pre : List (Option Nat)) (h : ∀ x ∈ pre, x ≠ some 0)
    (l : List (Option Nat)) :
    stdinLoop (pre ++ l) = msgsOf pre ++ stdinLoop l := by
  induction pre with
  | nil => simp [msgsOf]
  | cons x xs ih =>
    cases x with
    | none =>
      rw [List.cons_append, stdinLoop]
      rw [ih (fun y hy => h y (List.mem_cons_of_mem _ hy))]
      simp [msgsOf]
    | some n =>
      have hn : n ≠ 0 := by
        intro hcon
        exact h (some n) (List.mem_cons_self _ _) (by rw [hcon])
      rw [List.cons_append, stdinLoop, if_neg hn]
      rw [ih (fun y hy => h y (List.mem_cons_of_mem _ hy))]
      simp [msgsOf]

/-- The write fold forwards nonzero requests, then exits the process on the sentinel without forwarding it. -/
theorem writeFold_append_zero (msgs : List Request) (h : ∀ m ∈ msgs, m.num_addrs ≠ 0) :
    writeFold (msgs ++ [{ num_addrs := 0 }]) = (msgs, true) := by
  induction msgs with
  | nil => simp [writeFold]
  | cons m ms ih =>
    rw [List.cons_append, writeFold,
      if_neg (h m (List.mem_cons_self _ _)),
      ih (fun y hy => h y (List.mem_cons_of_mem _ hy))]

/-- Inputs with no zero produce only nonzero requests. -/
theorem msgsOf_no_zero (pre : List (Option Nat)) (h : ∀ x ∈ pre, x ≠ some 0) :
    ∀ m ∈ msgsOf pre, m.num_addrs ≠ 0 := by
  intro m hm
  unfold msgsOf at hm
  obtain ⟨n, hn, hmn⟩ := List.mem_map.mp hm
  obtain ⟨x, hx, hxn⟩ := List.mem_filterMap.mp hn
  intro hcon
  apply h x hx
  have hmn2 : m.num_addrs = n := by rw [← hmn]
  have hxn2 : x = some n := hxn
  rw [hxn2, ← hmn2, hcon]

/-- C8: when the user enters 0 (after any inputs that are not 0), the stdin
thread sends `Request{num_addrs := 0}` into the session's outbound channel
as its final message, and the write direction, upon observing that
sentinel, initiates process shutdown: it terminates with the exit flag set,
forwarding only the earlier requests to the socket, as a function of the
outbound messages alone: no server response is consulted or required. -/
theorem c8_zero_sentinel_shutdown (pre post : List (Option Nat))
    (h : ∀ x ∈ pre, x ≠ some 0) :
    stdinLoop (pre ++ some 0 :: post) = msgsOf pre ++ [{ num_addrs := 0 }]
    ∧ writeFold (msgsOf pre ++ [{ num_addrs := 0 }]) = (msgsOf pre, true) := by
  constructor
  · rw [stdinLoop_no_zero pre h (some 0 :: post)]
    rw [stdinLoop, if_pos rfl]
  · exact writeFold_append_zero _ (msgsOf_no_zero pre h)

/-- C9: whenever the Response decoder returns the invalid-payload-length
error, the buffer it leaves behind is exactly the buffer it was given: the
failing call consumes no bytes. -/
theorem c9_invalid_error_atomic (buf : List Nat)
    (h : (ClientToServerCodec.decode buf).1 = DecodeResult.invalidInput) :
    (ClientToServerCodec.decode buf).2 = buf := by
  by_cases h1 : buf.length < 4
  · rw [decode_short buf h1]
  · by_cases hm : readU32BE buf % 6 = 0
    · by_cases hl : buf.length < 4 + readU32BE buf
      · rw [decode_header_only buf h1 hm hl]
      · rw [decode_complete buf h1 hm hl] at h
        simp at h
    · rw [decode_invalid buf h1 hm]

/-- C10: the Response encoder is not atomic on failure: if the first
non-IPv4 address sits at index `i` (here: after the all-IPv4 list `pre`),
the error result's buffer already holds the 4-byte big-endian length header
computed from the full list length (`len * 6` truncated to `u32`) followed
by the 6-byte encodings of the first `i` addresses. -/
theorem c10_encode_nonatomic_on_error (buf : List Nat)
    (pre rest : List SocketAddr) (a : SocketAddr)
    (hpre : ∀ x ∈ pre, x.isV4 = true) (ha : a.isV4 = false) :
    ServerToClientCodec.encode { addrs := pre ++ a :: rest } buf
      = (.unsupportedAddressFamily,
         buf ++ u32ToBytesBE ((pre ++ a :: rest).length % 2 ^ 32 * 6 % 2 ^ 32)
           ++ pre.flatMap addrBytes) := by
  unfold ServerToClientCodec.encode
  rw [encodeAddrs_err pre a rest _ hpre ha]

/-- C1 witness: the three parts of C1 instantiated at concrete buffers and a concrete one-address frame split at byte 5. -/
theorem c1_witness :
    ClientToServerCodec.decode [0, 0] = (.needMoreData, [0, 0])
    ∧ ClientToServerCodec.decode [0, 0, 0, 6, 9] = (.needMoreData, [0, 0, 0, 6, 9])
    ∧ (ClientToServerCodec.decode
          ((ServerToClientCodec.encode { addrs := [{ ip := IpAddr.v4 1 2 3 4, port := 80 }] } []).2.take 5)
        = (.needMoreData,
           (ServerToClientCodec.encode { addrs := [{ ip := IpAddr.v4 1 2 3 4, port := 80 }] } []).2.take 5)
      ∧ (ServerToClientCodec.encode { addrs := [{ ip := IpAddr.v4 1 2 3 4, port := 80 }] } []).2.take 5
          ++ (ServerToClientCodec.encode { addrs := [{ ip := IpAddr.v4 1 2 3 4, port := 80 }] } []).2.drop 5
          = (ServerToClientCodec.encode { addrs := [{ ip := IpAddr.v4 1 2 3 4, port := 80 }] } []).2
      ∧ ClientToServerCodec.decode
          (ServerToClientCodec.encode { addrs := [{ ip := IpAddr.v4 1 2 3 4, port := 80 }] } []).2
        = (.decoded { addrs := [{ ip := IpAddr.v4 1 2 3 4, port := 80 }] }, [])) :=
  ⟨c1_decode_nondestructive.1 [0, 0] (by decide),
   c1_decode_nondestructive.2.1 [0, 0, 0, 6, 9] (by decide) (by decide) (by decide),
   c1_decode_nondestructive.2.2 [{ ip := IpAddr.v4 1 2 3 4, port := 80 }]
     (by decide) (by decide) 5 (by decide)⟩

/-- C2 witness: the amended round-trip instantiated at a concrete two-address list. -/
theorem c2_witness :
    (ServerToClientCodec.encode { addrs := [{ ip := IpAddr.v4 10 0 0 1, port := 8080 },
        { ip := IpAddr.v4 255 255 255 255, port := 65535 }] } []).1 = EncodeResult.ok
    ∧ ClientToServerCodec.decode
        (ServerToClientCodec.encode { addrs := [{ ip := IpAddr.v4 10 0 0 1, port := 8080 },
          { ip := IpAddr.v4 255 255 255 255, port := 65535 }] } []).2
      = (.decoded { addrs := [{ ip := IpAddr.v4 10 0 0 1, port := 8080 },
          { ip := IpAddr.v4 255 255 255 255, port := 65535 }] }, []) :=
  c2_roundtrip_bounded
    [{ ip := IpAddr.v4 10 0 0 1, port := 8080 }, { ip := IpAddr.v4 255 255 255 255, port := 65535 }]
    (by decide) (by decide)

/-- C3 witness: a 4-byte buffer with header 7 (not a multiple of 6) is rejected without consuming bytes. -/
theorem c3_witness :
    ClientToServerCodec.decode [0, 0, 0, 7] = (.invalidInput, [0, 0, 0, 7]) :=
  c3_invalid_payload_length [0, 0, 0, 7] (by decide) (by decide)

/-- C4 witness: exact consumption on a concrete frame with a trailing byte, and two concrete concatenated frames decoded in sequence. -/
theorem c4_witness :
    (4 + readU32BE [0, 0, 0, 6, 1, 2, 3, 4, 0, 50, 99] ≤ [0, 0, 0, 6, 1, 2, 3, 4, 0, 50, 99].length
      ∧ [99] = [0, 0, 0, 6, 1, 2, 3, 4, 0, 50, 99].drop (4 + readU32BE [0, 0, 0, 6, 1, 2, 3, 4, 0, 50, 99]))
    ∧ (ClientToServerCodec.decode
          ((ServerToClientCodec.encode { addrs := [{ ip := IpAddr.v4 1 2 3 4, port := 80 }] } []).2
            ++ (ServerToClientCodec.encode { addrs := [{ ip := IpAddr.v4 5 6 7 8, port := 443 }] } []).2)
        = (.decoded { addrs := [{ ip := IpAddr.v4 1 2 3 4, port := 80 }] },
           (ServerToClientCodec.encode { addrs := [{ ip := IpAddr.v4 5 6 7 8, port := 443 }] } []).2)
      ∧ ClientToServerCodec.decode
          (ServerToClientCodec.encode { addrs := [{ ip := IpAddr.v4 5 6 7 8, port := 443 }] } []).2
        = (.decoded { addrs := [{ ip := IpAddr.v4 5 6 7 8, port := 443 }] }, [])) :=
  ⟨c4_decode_consumes_exact_frame.1 [0, 0, 0, 6, 1, 2, 3, 4, 0, 50, 99] [99]
     { addrs := [{ ip := IpAddr.v4 1 2 3 4, port := 50 }] } (by decide),
   c4_decode_consumes_exact_frame.2 [{ ip := IpAddr.v4 1 2 3 4, port := 80 }]
     [{ ip := IpAddr.v4 5 6 7 8, port := 443 }] (by decide) (by decide) (by decide) (by decide)⟩

/-- C5 witness: the Request round-trip at the maximal `u32`, and the decoder on concrete 4-byte-plus buffers. -/
theorem c5_witness :
    ServerToClientCodec.decode (ClientToServerCodec.encode { num_addrs := 4294967295 } [])
      = (.decoded { num_addrs := 4294967295 }, [])
    ∧ ServerToClientCodec.decode [1, 2, 3, 4, 5]
      = (.decoded { num_addrs := readU32BE [1, 2, 3, 4, 5] }, [1, 2, 3, 4, 5].drop 4)
    ∧ (ServerToClientCodec.decode [7]).1 ≠ DecodeResult.invalidInput :=
  ⟨c5_request_roundtrip.1 4294967295 (by decide),
   c5_request_roundtrip.2.1 [1, 2, 3, 4, 5] (by decide),
   c5_request_roundtrip.2.2 [7]⟩

/-- C6 witness: a one-v6 Response is rejected; a one-v4 Response encodes to exactly its header and 6 bytes. -/
theorem c6_witness :
    (ServerToClientCodec.encode { addrs := [{ ip := IpAddr.v6, port := 1 }] } []).1
      = EncodeResult.unsupportedAddressFamily
    ∧ ServerToClientCodec.encode { addrs := [{ ip := IpAddr.v4 192 168 0 1, port := 80 }] } [9]
      = (.ok, [9] ++ u32ToBytesBE (([{ ip := IpAddr.v4 192 168 0 1, port := 80 }] : List SocketAddr).length % 2 ^ 32 * 6 % 2 ^ 32)
          ++ [{ ip := IpAddr.v4 192 168 0 1, port := 80 }].flatMap addrBytes) :=
  ⟨(c6_encode_ipv4_iff { addrs := [{ ip := IpAddr.v6, port := 1 }] } []).1.mpr (by decide),
   (c6_encode_ipv4_iff { addrs := [{ ip := IpAddr.v4 192 168 0 1, port := 80 }] } [9]).2 (by decide)⟩

/-- C8 witness: the sentinel behaviour on the concrete input run 2, non-integer, 3, 0, 7. -/
theorem c8_witness :
    stdinLoop ([some 2, none, some 3] ++ some 0 :: [some 7])
      = msgsOf [some 2, none, some 3] ++ [{ num_addrs := 0 }]
    ∧ writeFold (msgsOf [some 2, none, some 3] ++ [{ num_addrs := 0 }])
      = (msgsOf [some 2, none, some 3], true) :=
  c8_zero_sentinel_shutdown [some 2, none, some 3] [some 7] (by decide)

/-- C9 witness: the failing decode of the concrete header-8 buffer leaves the buffer unchanged. -/
theorem c9_witness :
    (ClientToServerCodec.decode [0, 0, 0, 8]).2 = [0, 0, 0, 8] :=
  c9_invalid_error_atomic [0, 0, 0, 8] (by decide)

/-- C10 witness: a concrete v4, v6, v4 list written into a one-byte buffer stops after the header and the first address. -/
theorem c10_witness :
    ServerToClientCodec.encode
        { addrs := [{ ip := IpAddr.v4 1 2 3 4, port := 80 }]
            ++ { ip := IpAddr.v6, port := 0 } :: [{ ip := IpAddr.v4 9 9 9 9, port := 9 }] } [1]
      = (.unsupportedAddressFamily,
         [1] ++ u32ToBytesBE ((([{ ip := IpAddr.v4 1 2 3 4, port := 80 }]
              ++ { ip := IpAddr.v6, port := 0 } :: [{ ip := IpAddr.v4 9 9 9 9, port := 9 }] : List SocketAddr)).length
            % 2 ^ 32 * 6 % 2 ^ 32)
           ++ [{ ip := IpAddr.v4 1 2 3 4, port := 80 }].flatMap addrBytes) :=
  c10_encode_nonatomic_on_error [1] [{ ip := IpAddr.v4 1 2 3 4, port := 80 }]
    [{ ip := IpAddr.v4 9 9 9 9, port := 9 }] { ip := IpAddr.v6, port := 0 }
    (by decide) (by decide)
